import Mathlib

/-
Verification development for the ModpackGraphviz tool (src/main.py).

The Python program scans a folder of Minecraft mod archives (".jar" zip
files), extracts a normalized record from one of three metadata schemas
(fabric.mod.json / META-INF/mods.toml / mcmod.info), filters out
platform-internal identifiers, detects dependencies embedded inside other
archives, and emits a Graphviz DOT dependency graph.

Shallow embedding conventions used below:
- A zip archive is modelled by `Archive`: whether it opens (`ok`), its
  name listing (`entries`), and for each of the three fixed manifest paths
  the outcome of reading and parsing that entry (`none` models any parse
  or field-access exception, which the Python code swallows).
- Python `None`-able strings are `Option String`; Python string truthiness
  (`x or y`) is `pyOr`.
- Python dicts (insertion ordered, assignment overwrites in place) are
  association lists with `insertDep` / `insertDict`.
- The `_path` handle stored by `extract_mod_metadata` and reopened by
  `is_dependency_embedded` is modelled as the `Archive` itself: reopening
  a path yields the same archive content within one run.
-/

/-- Value of one entry of a `depends` dict: Python `{"required": bool}`. -/
structure DepMeta where
  required : Bool
deriving DecidableEq, Inhabited

/-- Result of `extract_metadata_from_bytes`: Python dict
`{"id": ..., "name": ..., "depends": ...}`.  Keys of `depends` are
`Option String` because the Forge branch stores `dep.get("modId")`,
which may be Python `None`. -/
structure ModMeta where
  id : Option String
  name : Option String
  depends : List (Option String × DepMeta)
deriving DecidableEq, Inhabited

/-- Parsed content of a `fabric.mod.json` manifest as accessed by the
Python code: fields `id`, `name`, and the key sets of the `depends`,
`recommends` and `suggests` objects, in iteration order. -/
structure FabricManifest where
  id : Option String
  name : Option String
  depends : List String
  recommends : List String
  suggests : List String
deriving DecidableEq, Inhabited

/-- One table of the `[[mods]]` array of a `META-INF/mods.toml`. -/
structure ForgeModEntry where
  modId : Option String
  displayName : Option String
deriving DecidableEq, Inhabited

/-- One table of a `[[dependencies.<modid>]]` array of a mods.toml:
`modId` may be absent (`dep.get("modId")` returns `None`), `mandatory`
defaults to false (`dep.get("mandatory", False)`). -/
structure TomlDep where
  modId : Option String
  mandatory : Option Bool
deriving DecidableEq, Inhabited

/-- Parsed content of a `META-INF/mods.toml`: the `mods` array and the
top-level `dependencies` table (keyed by mod id). -/
structure ForgeManifest where
  mods : List ForgeModEntry
  dependencies : List (String × List TomlDep)
deriving DecidableEq, Inhabited

/-- One object of the legacy `mcmod.info` JSON list. -/
structure McmodEntry where
  modid : Option String
  name : Option String
  dependencies : List String
  requiredMods : List String
deriving DecidableEq, Inhabited

/-- Outcome of `jar.read(name)` plus `extract_metadata_from_bytes` on a
nested jar entry: `readFail` models `jar.read` raising, `bytes m` models a
successful read whose bytes yield metadata `m` (`none` when the nested
bytes are not a readable mod archive). -/
inductive NestedEntry where
  | readFail : NestedEntry
  | bytes : Option ModMeta → NestedEntry
deriving DecidableEq, Inhabited

/-- A zip archive as observed by the Python code.
`ok` is whether `zipfile.ZipFile(...)` succeeds; `entries` is
`jar.namelist()`.  `fabric`, `forge`, `mcmod` are the parse outcomes of
the three fixed manifest paths as accessed by the extractor (`none`
models a raised-and-swallowed exception anywhere in that schema's
field accesses; for `mcmod` it also covers a document that is not a
JSON list).  `fabricJars` is the independent parse outcome used by
embedding heuristic 4 (the `jars` list's `id` fields, lower-case-able
strings); it is separate from `fabric` because the two code paths parse
the same entry independently and each can fail on fields the other does
not touch.  `nested` maps entry names to the outcome of reading them as
nested jars. -/
structure Archive where
  ok : Bool
  entries : List String
  fabric : Option FabricManifest
  forge : Option ForgeManifest
  mcmod : Option (List McmodEntry)
  fabricJars : Option (List String)
  nested : List (String × NestedEntry)
deriving DecidableEq, Inhabited

/-- Result of `extract_mod_metadata`: like `ModMeta` plus the `_path`
source handle (modelled as the archive itself). -/
structure ModInfo where
  id : Option String
  name : Option String
  depends : List (Option String × DepMeta)
  path : Archive
deriving DecidableEq

/-- Python string truthiness fallback `x or y` on `None`-able strings:
`None` and `""` are falsy. -/
def pyOr (x y : Option String) : Option String :=
  match x with
  | some s => if s = "" then y else some s
  | none => y

/-- Python dict assignment `d[k] = v` on an insertion-ordered assoc list:
if the key is present its value is updated in place, otherwise the pair
is appended. -/
def insertDep (m : List (Option String × DepMeta)) (k : Option String)
    (v : DepMeta) : List (Option String × DepMeta) :=
  if m.any (fun p => p.1 = k) then
    m.map (fun p => if p.1 = k then (k, v) else p)
  else m ++ [(k, v)]

/-- Python dict lookup `d.get(k)` on the `depends` assoc list. -/
def lookupDep (m : List (Option String × DepMeta)) (k : Option String) :
    Option DepMeta :=
  (m.find? (fun p => p.1 = k)).map (fun p => p.2)

/-- The global `IGNORED_MODS` set (membership is tested on lowercased ids,
so a list is an adequate model of the Python set). -/
def IGNORED_MODS : List String :=
  ["minecraft", "forge", "neoforge", "fabricloader", "fabric-loader",
   "fabric", "fabric-api", "fabric_api", "fabric-resource-loader-v0",
   "fabric-screen-api-v1", "fabric-networking-api-v1",
   "fabric-lifecycle-events-v1", "fabric-renderer-api-v1",
   "fabric-registry-sync-v0", "fabric-api-base",
   "fabric-events-interaction-v0", "fabric-permissions-api-v0",
   "fabric-command-api-v2", "fabric-kotlin", "java"]

/-- Python `str.lower()`, written over the character list so that it
evaluates by kernel reduction (the identifiers involved are ASCII, for
which `Char.toLower` is exactly Python's case folding). -/
def pyLower (s : String) : String :=
  ⟨s.data.map Char.toLower⟩

/-- Python `str.startswith(pre)`, written over the character lists. -/
def strStartsWith (s pre : String) : Bool :=
  pre.data.isPrefixOf s.data

/-- Python `str.endswith(suf)`, written over the character lists. -/
def strEndsWith (s suf : String) : Bool :=
  suf.data.isSuffixOf s.data

/-- `should_ignore(modid)`: Python returns `modid and modid.lower() in
IGNORED_MODS`; call sites only use its truthiness, so the model returns
the truth value (`None` and `""` are falsy). -/
def should_ignore (modid : Option String) : Bool :=
  match modid with
  | none => false
  | some s => s != "" && IGNORED_MODS.contains (pyLower s)

/-- The `depends` dict built by the Fabric branch: `depends` keys with
`required=True`, then `recommends` keys with `required=False`, then
`suggests` keys with `required=False`; dict assignment overwrites. -/
def fabricDepends (m : FabricManifest) : List (Option String × DepMeta) :=
  let d1 := m.depends.foldl (fun acc k => insertDep acc (some k) ⟨true⟩) []
  let d2 := m.recommends.foldl (fun acc k => insertDep acc (some k) ⟨false⟩) d1
  m.suggests.foldl (fun acc k => insertDep acc (some k) ⟨false⟩) d2

/-- The record returned by the Fabric branch of
`extract_metadata_from_bytes`. -/
def fabricMeta (m : FabricManifest) : ModMeta :=
  { id := m.id, name := pyOr m.name m.id, depends := fabricDepends m }

/-- `data.get("dependencies", {}).get(mod_id, [])`: a lookup with a
possibly-`None` key into a string-keyed table, defaulting to `[]`. -/
def depsLookup (deps : List (String × List TomlDep)) (k : Option String) :
    List TomlDep :=
  match k with
  | none => []
  | some s => ((deps.find? (fun p => p.1 = s)).map (fun p => p.2)).getD []

/-- The `depends` dict built by the Forge branch from the `depArr` list:
`depends[dep.get("modId")] = {"required": dep.get("mandatory", False)}`. -/
def forgeDepends (depArr : List TomlDep) : List (Option String × DepMeta) :=
  depArr.foldl (fun acc dep => insertDep acc dep.modId ⟨dep.mandatory.getD false⟩) []

/-- The record returned by the Forge branch of
`extract_metadata_from_bytes`, given the first `mods` entry. -/
def forgeMeta (e : ForgeModEntry) (deps : List (String × List TomlDep)) : ModMeta :=
  { id := e.modId
  , name := pyOr e.displayName e.modId
  , depends := forgeDepends (depsLookup deps e.modId) }

/-- The `depends` dict built by the mcmod.info branch: `dependencies`
then `requiredMods`, all with `required=True`. -/
def mcmodDepends (e : McmodEntry) : List (Option String × DepMeta) :=
  let d1 := e.dependencies.foldl (fun acc k => insertDep acc (some k) ⟨true⟩) []
  e.requiredMods.foldl (fun acc k => insertDep acc (some k) ⟨true⟩) d1

/-- The record returned by the mcmod.info branch of
`extract_metadata_from_bytes`, given the first list element. -/
def mcmodMeta (e : McmodEntry) : ModMeta :=
  { id := e.modid, name := pyOr e.name e.modid, depends := mcmodDepends e }

/-- The Fabric section of `extract_metadata_from_bytes` (lines 55-74):
`some r` models an executed `return r`; `none` models falling through to
the next section (manifest path absent, or an exception swallowed by
`except: pass`). -/
def fabricStage (a : Archive) : Option (Option ModMeta) :=
  if "fabric.mod.json" ∈ a.entries then
    match a.fabric with
    | some m => some (some (fabricMeta m))
    | none => none
  else none

/-- The Forge section of `extract_metadata_from_bytes` (lines 77-98):
note that an empty `mods` array executes `return None` (it does not fall
through to the mcmod.info section), while a parse exception does fall
through. -/
def forgeStage (a : Archive) : Option (Option ModMeta) :=
  if "META-INF/mods.toml" ∈ a.entries then
    match a.forge with
    | some mf =>
      match mf.mods with
      | [] => some none
      | e :: _ => some (some (forgeMeta e mf.dependencies))
    | none => none
  else none

/-- The mcmod.info section of `extract_metadata_from_bytes`
(lines 101-116): a document that is not a nonempty list, or any
exception, falls through to the final `return None`. -/
def mcmodStage (a : Archive) : Option (Option ModMeta) :=
  if "mcmod.info" ∈ a.entries then
    match a.mcmod with
    | some (e :: _) => some (some (mcmodMeta e))
    | _ => none
  else none

/-- `extract_metadata_from_bytes` (lines 48-118). -/
def extract_metadata_from_bytes (a : Archive) : Option ModMeta :=
  if !a.ok then none
  else
    match fabricStage a with
    | some r => r
    | none =>
      match forgeStage a with
      | some r => r
      | none =>
        match mcmodStage a with
        | some r => r
        | none => none

/-- The Fabric section of `extract_mod_metadata` (lines 197-216); same
code as the bytes version plus `"_path": jar_path`. -/
def fabricStageJar (a : Archive) : Option (Option ModInfo) :=
  if "fabric.mod.json" ∈ a.entries then
    match a.fabric with
    | some m =>
        some (some { id := m.id, name := pyOr m.name m.id
                   , depends := fabricDepends m, path := a })
    | none => none
  else none

/-- The Forge section of `extract_mod_metadata` (lines 219-240). -/
def forgeStageJar (a : Archive) : Option (Option ModInfo) :=
  if "META-INF/mods.toml" ∈ a.entries then
    match a.forge with
    | some mf =>
      match mf.mods with
      | [] => some none
      | e :: _ =>
          some (some { id := e.modId, name := pyOr e.displayName e.modId
                     , depends := forgeDepends (depsLookup mf.dependencies e.modId)
                     , path := a })
    | none => none
  else none

/-- The mcmod.info section of `extract_mod_metadata` (lines 243-258). -/
def mcmodStageJar (a : Archive) : Option (Option ModInfo) :=
  if "mcmod.info" ∈ a.entries then
    match a.mcmod with
    | some (e :: _) =>
        some (some { id := e.modid, name := pyOr e.name e.modid
                   , depends := mcmodDepends e, path := a })
    | _ => none
  else none

/-- `extract_mod_metadata` (lines 190-260). -/
def extract_mod_metadata (a : Archive) : Option ModInfo :=
  if !a.ok then none
  else
    match fabricStageJar a with
    | some r => r
    | none =>
      match forgeStageJar a with
      | some r => r
      | none =>
        match mcmodStageJar a with
        | some r => r
        | none => none

/-- Lookup of an entry name in the `nested` read table of an archive. -/
def lookupNested (a : Archive) (k : String) : Option NestedEntry :=
  (a.nested.find? (fun p => p.1 = k)).map (fun p => p.2)

/-- Python substring test `needle in haystack`. -/
def strContains (haystack needle : String) : Bool :=
  decide (needle.data <:+: haystack.data)

/-- The two bundled-library directory prefixes of embedding heuristic 1. -/
def embeddedDirs : List String :=
  ["META-INF/jars/", "META-INF/jarjar/"]

/-- The body of heuristic 1 for one entry name: read the nested jar,
extract metadata from its bytes, and compare the id (case-insensitively)
with the already-lowercased target `dep`.  Any read failure, absent
metadata, absent/empty id is a failed probe (`except: pass`). -/
def nestedProbe (a : Archive) (dep : String) (nm : String) : Bool :=
  match lookupNested a nm with
  | some (NestedEntry.bytes (some meta)) =>
    match meta.id with
    | some i => i != "" && pyLower i == dep
    | none => false
  | _ => false

/-- Heuristic 1 of `is_dependency_embedded` (lines 136-149): nested jars
under the bundled-library prefixes. -/
def probeNestedJars (a : Archive) (dep : String) : Bool :=
  embeddedDirs.any (fun pre =>
    a.entries.any (fun nm =>
      strStartsWith nm pre && strEndsWith nm ".jar" && nestedProbe a dep nm))

/-- Heuristic 2 (lines 152-158): namespace folders `assets/<dep>/` and
`data/<dep>/` (entry paths are compared as-is, `dep` is lowercased). -/
def probeNamespace (a : Archive) (dep : String) : Bool :=
  [ "assets/" ++ dep ++ "/", "data/" ++ dep ++ "/" ].any (fun ns =>
    a.entries.any (fun p => strStartsWith p ns))

/-- Heuristic 3 (lines 161-171): class-package prefixes on lowercased
entry names, requiring a `.class` suffix. -/
def probeClassPkg (a : Archive) (dep : String) : Bool :=
  a.entries.any (fun nm =>
    ([dep ++ "/", "com/" ++ dep ++ "/", "net/" ++ dep ++ "/", "io/" ++ dep ++ "/"].any
        (fun pre => strStartsWith (pyLower nm) pre))
      && strEndsWith (pyLower nm) ".class")

/-- Heuristic 4 (lines 174-181): the declared `jars` list of a Fabric
manifest; `dep` must be a substring of a declared bundled id, lowercased.
A parse failure (`a.fabricJars = none`) is swallowed. -/
def probeFabricJars (a : Archive) (dep : String) : Bool :=
  if "fabric.mod.json" ∈ a.entries then
    match a.fabricJars with
    | some jars => jars.any (fun jid => strContains (pyLower jid) dep)
    | none => false
  else false

/-- `is_dependency_embedded` (lines 125-183): lowercase the target id,
return false if the archive cannot be opened, otherwise try the four
heuristics in order, returning true on the first success. -/
def is_dependency_embedded (a : Archive) (dep_id : String) : Bool :=
  let dep := pyLower dep_id
  if !a.ok then false
  else probeNestedJars a dep || probeNamespace a dep
      || probeClassPkg a dep || probeFabricJars a dep

/-- Python dict assignment `mods[k] = v` for the registry. -/
def insertDict (m : List (String × ModInfo)) (k : String) (v : ModInfo) :
    List (String × ModInfo) :=
  if m.any (fun p => p.1 = k) then
    m.map (fun p => if p.1 = k then (k, v) else p)
  else m ++ [(k, v)]

/-- The body of the `scan_mod_folder` loop (lines 271-282) for one
archive: keep the mod when extraction succeeds, its id is truthy
(`info["id"]` is neither `None` nor `""`) and not ignored; filter its
`depends` dict of ignored keys; insert keyed by id (overwriting). -/
def scanStep (mods : List (String × ModInfo)) (jar : Archive) :
    List (String × ModInfo) :=
  match extract_mod_metadata jar with
  | some info =>
    match info.id with
    | some i =>
      if i != "" && !should_ignore (some i) then
        insertDict mods i
          { info with depends := info.depends.filter (fun q => !should_ignore q.1) }
      else mods
    | none => mods
  | none => mods

/-- `scan_mod_folder` (lines 267-284).  The folder is modelled as the
list of archives produced by `folder.glob("*.jar")` in iteration order. -/
def scan_mod_folder (folder : List Archive) : List (String × ModInfo) :=
  folder.foldl scanStep []

/-- Rendering of a `None`-able string by a Python f-string. -/
def pyStr (x : Option String) : String :=
  match x with
  | some s => s
  | none => "None"

/-- The three fixed header lines of the DOT output (lines 297-301). -/
def headerLines : List String :=
  ["digraph mods \x7b",
   "    rankdir=\"LR\";",
   "    node [shape=box, style=filled, fillcolor=\"white\"];"]

/-- Node line for an installed mod (lines 304-306). -/
def nodeLine (mod_id : String) (info : ModInfo) : String :=
  "    \"" ++ mod_id ++ "\" [label=\"" ++ pyStr info.name ++ "\\n(" ++ mod_id
    ++ ")\", fillcolor=\"white\"];"

/-- Edge line for a satisfied dependency (line 324). -/
def satEdgeLine (mod_id d : String) : String :=
  "    \"" ++ mod_id ++ "\" -> \"" ++ d ++ "\";"

/-- Edge line for a missing required dependency (line 328). -/
def redEdgeLine (mod_id d : String) : String :=
  "    \"" ++ mod_id ++ "\" -> \"" ++ d ++ "\" [color=\"red\"];"

/-- Edge line for a missing optional dependency (line 331). -/
def yellowEdgeLine (mod_id d : String) : String :=
  "    \"" ++ mod_id ++ "\" -> \"" ++ d ++ "\" [color=\"yellow\"];"

/-- Placeholder node line for a missing required dependency (lines 334-337). -/
def reqNodeLine (d : String) : String :=
  "    \"" ++ d ++ "\" [label=\"" ++ d
    ++ "\\n(MISSING REQUIRED)\", fillcolor=\"red\", fontcolor=\"white\"];"

/-- Placeholder node line for a missing optional dependency (lines 339-342). -/
def optNodeLine (d : String) : String :=
  "    \"" ++ d ++ "\" [label=\"" ++ d
    ++ "\\n(optional missing)\", fillcolor=\"yellow\", fontcolor=\"black\"];"

/-- Python set insertion, modelled on a duplicate-free list; only the
membership of the set is observable (it is sorted before use). -/
def setAdd (s : List String) (x : String) : List String :=
  if x ∈ s then s else s ++ [x]

/-- Sorted insertion, used to model Python `sorted` on strings. -/
def insertSorted (x : String) : List String → List String
  | [] => [x]
  | y :: ys => if y < x then y :: insertSorted x ys else x :: y :: ys

/-- Python `sorted` on a list of strings (insertion sort). -/
def sortStr (l : List String) : List String :=
  l.foldr insertSorted []

/-- The mutable state of `export_to_dot`'s edge loop: the `out` line list
and the two missing-identifier sets. -/
structure DotState where
  out : List String
  missing_required : List String
  missing_optional : List String
deriving DecidableEq

/-- One iteration of the inner edge loop of `export_to_dot`
(lines 310-331) for a single `(dep, meta)` pair of `mod_id`.
`dep_missing` starts as `dep not in installed` and is cleared when some
registered mod's archive embeds the dependency (the Python loop
short-circuits on the first success; the resulting boolean is the same).
A `None` dependency key reaches `is_dependency_embedded(path, None)`,
whose unguarded `dep_id.lower()` raises: modelled as `none`.  (That call
is reached whenever a dependency is iterated, since the registry then
has at least the declaring mod.) -/
def processDep (mods : List (String × ModInfo)) (installed : List String)
    (mod_id : String) (st : DotState) (dep : Option String) (meta : DepMeta) :
    Option DotState :=
  match dep with
  | none => none
  | some d =>
    let dep_missing := !installed.contains d
        && !(mods.any (fun q => is_dependency_embedded q.2.path d))
    if !dep_missing then
      some { st with out := st.out ++ [satEdgeLine mod_id d] }
    else if meta.required then
      some { out := st.out ++ [redEdgeLine mod_id d]
           , missing_required := setAdd st.missing_required d
           , missing_optional := st.missing_optional }
    else
      some { out := st.out ++ [yellowEdgeLine mod_id d]
           , missing_required := st.missing_required
           , missing_optional := setAdd st.missing_optional d }

/-- The edge loop of `export_to_dot` for one registry entry. -/
def processMod (mods : List (String × ModInfo)) (installed : List String)
    (st : DotState) (entry : String × ModInfo) : Option DotState :=
  entry.2.depends.foldlM (fun s p => processDep mods installed entry.1 s p.1 p.2) st

/-- `export_to_dot` (lines 291-345), producing the list of output lines
(the text written to the file is their newline join).  `none` models the
run aborting with an uncaught exception. -/
def export_to_dot (mods : List (String × ModInfo)) : Option (List String) :=
  let installed := mods.map (fun p => p.1)
  let st0 : DotState :=
    { out := headerLines ++ mods.map (fun p => nodeLine p.1 p.2)
    , missing_required := [], missing_optional := [] }
  match mods.foldlM (processMod mods installed) st0 with
  | none => none
  | some stF =>
    some (stF.out
      ++ (sortStr stF.missing_required).map reqNodeLine
      ++ (sortStr stF.missing_optional).map optNodeLine
      ++ ["\x7d"])

/-! ### Concrete inputs used by witnesses and counterexamples -/

def c5Manifest : FabricManifest :=
  { id := some "alpha", name := none
  , depends := ["hard1", "both"], recommends := ["rec1", "both"], suggests := ["sug1"] }

def c5Arch : Archive :=
  { ok := true, entries := ["fabric.mod.json"], fabric := some c5Manifest
  , forge := none, mcmod := none, fabricJars := none, nested := [] }

def c4Manifest : FabricManifest :=
  { id := some "moda", name := some "Mod A"
  , depends := ["x"], recommends := ["x"], suggests := [] }

def c4Arch : Archive :=
  { ok := true, entries := ["fabric.mod.json"], fabric := some c4Manifest
  , forge := none, mcmod := none, fabricJars := none, nested := [] }

def c2Forge : ForgeManifest :=
  { mods := [{ modId := some "modb", displayName := some "Mod B" }]
  , dependencies := [("modb", [{ modId := some "dep1", mandatory := some true }])] }

def c2Arch : Archive :=
  { ok := true, entries := ["fabric.mod.json", "META-INF/mods.toml"]
  , fabric := none, forge := some c2Forge
  , mcmod := none, fabricJars := none, nested := [] }

def c6Manifest : FabricManifest :=
  { id := some "goodmod", name := some "G"
  , depends := ["minecraft", "realdep"], recommends := [], suggests := [] }

def c6Arch : Archive :=
  { ok := true, entries := ["fabric.mod.json"], fabric := some c6Manifest
  , forge := none, mcmod := none, fabricJars := none, nested := [] }

def c6Info : ModInfo :=
  { id := some "goodmod", name := some "G"
  , depends := [(some "realdep", { required := true })], path := c6Arch }

def c7Arch : Archive :=
  { ok := true
  , entries := ["fabric.mod.json", "META-INF/jars/broken.jar"]
  , fabric := none, forge := none, mcmod := none
  , fabricJars := some ["libx-embedded"]
  , nested := [("META-INF/jars/broken.jar", NestedEntry.readFail)] }

def c1ArchA : Archive :=
  { ok := true, entries := [], fabric := none, forge := none
  , mcmod := none, fabricJars := none, nested := [] }

def c1InfoA : ModInfo :=
  { id := some "a", name := some "A"
  , depends := [(some "b", { required := true }), (some "libx", { required := false })]
  , path := c1ArchA }

def c1InfoB : ModInfo :=
  { id := some "b", name := some "B", depends := [], path := c1ArchA }

def c1Mods : List (String × ModInfo) := [("a", c1InfoA), ("b", c1InfoB)]

def c3ArchA : Archive :=
  { ok := true, entries := [], fabric := none, forge := none
  , mcmod := none, fabricJars := none, nested := [] }

def c3InfoA : ModInfo :=
  { id := some "a", name := some "A"
  , depends := [(some "x", { required := true })], path := c3ArchA }

def c3InfoB : ModInfo :=
  { id := some "b", name := some "B"
  , depends := [(some "x", { required := false })], path := c3ArchA }

def c3Mods : List (String × ModInfo) := [("a", c3InfoA), ("b", c3InfoB)]

def c10Arch : Archive :=
  { ok := true, entries := [], fabric := none, forge := none
  , mcmod := none, fabricJars := none, nested := [] }

def c10Info : ModInfo :=
  { id := some "Sodium", name := some "Sodium", depends := [], path := c10Arch }

/-- The spec-side satisfaction condition of §4.4: the dependency
identifier is a key of the registry, or some registered mod's source
archive embeds it. -/
def depSatisfied (mods : List (String × ModInfo)) (d : String) : Prop :=
  d ∈ mods.map (fun p => p.1) ∨ ∃ q ∈ mods, is_dependency_embedded q.2.path d = true

instance (mods : List (String × ModInfo)) (d : String) :
    Decidable (depSatisfied mods d) := by
  unfold depSatisfied
  infer_instance

/-- The per-edge output line as the spec describes it: a satisfied edge
exactly under `depSatisfied`, otherwise a red or yellow missing edge
according to the `required` flag. -/
def specEdgeLine (mods : List (String × ModInfo)) (mod_id d : String)
    (meta : DepMeta) : String :=
  if depSatisfied mods d then satEdgeLine mod_id d
  else if meta.required then redEdgeLine mod_id d
  else yellowEdgeLine mod_id d

/-- The Schema A section of the extractor produces a descriptor: its
manifest path is detected and `json.load` plus the field accesses
succeed. -/
def fabricParses (a : Archive) : Prop :=
  "fabric.mod.json" ∈ a.entries ∧ a.fabric ≠ none

/-- The Schema B section parses (detected, and `tomllib.loads` plus the
field accesses succeed); it may still return absent via an empty `mods`
array. -/
def forgeParses (a : Archive) : Prop :=
  "META-INF/mods.toml" ∈ a.entries ∧ a.forge ≠ none

/-- The Schema C section produces a descriptor: detected, parses, and
the document is a nonempty JSON list. -/
def mcmodYields (a : Archive) : Prop :=
  "mcmod.info" ∈ a.entries ∧ ∃ e rest, a.mcmod = some (e :: rest)

instance (a : Archive) : Decidable (fabricParses a) := by
  unfold fabricParses
  infer_instance

instance (a : Archive) : Decidable (forgeParses a) := by
  unfold forgeParses
  infer_instance

instance (a : Archive) : Decidable (mcmodYields a) := by
  unfold mcmodYields
  cases hm : a.mcmod with
  | none =>
    exact isFalse (by rintro ⟨-, e, rest, h⟩; cases h)
  | some l =>
    cases l with
    | nil =>
      refine isFalse ?_
      rintro ⟨-, e, rest, h⟩
      simp at h
    | cons e0 r0 =>
      exact if h : "mcmod.info" ∈ a.entries then isTrue ⟨h, e0, r0, rfl⟩
        else isFalse (fun hc => h hc.1)

/-- Archive with a parseable Schema B manifest whose `mods` array is
empty, alongside a perfectly good Schema C manifest: exercises the
`return None` of the empty-mods branch. -/
def c2EmptyArch : Archive :=
  { ok := true, entries := ["META-INF/mods.toml", "mcmod.info"]
  , fabric := none
  , forge := some { mods := [], dependencies := [] }
  , mcmod := some [{ modid := some "legacy", name := none
                   , dependencies := [], requiredMods := [] }]
  , fabricJars := none, nested := [] }

/-! ### Helper lemmas about the ordered-dict operations -/

theorem lookupDep_nil (k : Option String) : lookupDep [] k = none := rfl

theorem lookupDep_cons (p : Option String × DepMeta)
    (t : List (Option String × DepMeta)) (k : Option String) :
    lookupDep (p :: t) k = if p.1 = k then some p.2 else lookupDep t k := by
  by_cases h : p.1 = k
  · simp [lookupDep, List.find?_cons_of_pos, h]
  · simp [lookupDep, List.find?_cons_of_neg, h]

theorem lookupDep_map_update (m : List (Option String × DepMeta))
    (k k' : Option String) (v : DepMeta) :
    lookupDep (m.map (fun p => if p.1 = k then (k, v) else p)) k' =
      if k' = k then (if m.any (fun p => p.1 = k) then some v else none)
      else lookupDep m k' := by
  induction m with
  | nil => by_cases h : k' = k <;> simp [lookupDep, h]
  | cons p t ih =>
    by_cases hp : p.1 = k
    · by_cases hk : k' = k
      · simp [hp, hk, lookupDep_cons]
      · simp [hp, hk, Ne.symm hk, lookupDep_cons, ih]
    · by_cases hpk : p.1 = k'
      · have hk : ¬ (k' = k) := fun h => hp (h ▸ hpk)
        simp [hp, hpk, hk, lookupDep_cons]
      · simp only [List.map_cons, if_neg hp, lookupDep_cons, if_neg hpk, ih,
          List.any_cons, decide_eq_false hp, Bool.false_or]

theorem lookupDep_append_single (m : List (Option String × DepMeta))
    (k k' : Option String) (v : DepMeta) :
    lookupDep (m ++ [(k, v)]) k' =
      match lookupDep m k' with
      | some r => some r
      | none => if k = k' then some v else none := by
  induction m with
  | nil => simp [lookupDep, lookupDep_cons]
  | cons p t ih =>
    by_cases hpk : p.1 = k'
    · simp [List.cons_append, lookupDep_cons, hpk]
    · simp only [List.cons_append, lookupDep_cons, if_neg hpk, ih]

theorem any_eq_true_of_find?_isSome (m : List (Option String × DepMeta))
    (k : Option String) :
    m.any (fun p => p.1 = k) = (lookupDep m k).isSome := by
  induction m with
  | nil => simp [lookupDep]
  | cons p t ih => by_cases hp : p.1 = k <;> simp [lookupDep_cons, hp, ih]

/-- Behaviour of a single Python dict assignment with respect to lookup. -/
theorem lookupDep_insertDep (m : List (Option String × DepMeta))
    (k k' : Option String) (v : DepMeta) :
    lookupDep (insertDep m k v) k' = if k' = k then some v else lookupDep m k' := by
  unfold insertDep
  by_cases hany : m.any (fun p => p.1 = k) = true
  · rw [if_pos hany, lookupDep_map_update, hany]
    simp
  · rw [if_neg hany, lookupDep_append_single]
    have hany' : m.any (fun p => p.1 = k) = false := by
      cases h : m.any (fun p => p.1 = k)
      · rfl
      · exact absurd h hany
    have hnone : lookupDep m k = none := by
      have h2 := any_eq_true_of_find?_isSome m k
      rw [hany'] at h2
      cases h : lookupDep m k
      · rfl
      · rw [h] at h2; cases h2
    by_cases hk : k' = k
    · subst hk
      rw [hnone]
    · rw [if_neg hk]
      cases h : lookupDep m k'
      · have hne : ¬ k = k' := fun hh => hk hh.symm
        simp [hne]
      · rfl

/-- Lookup after one whole category pass of the extractor: every key of
the pass maps to the pass's constant flag, other keys are untouched. -/
theorem lookupDep_constPass (l : List String) (vm : DepMeta)
    (acc : List (Option String × DepMeta)) (k : Option String) :
    lookupDep (l.foldl (fun acc d => insertDep acc (some d) vm) acc) k =
      if k ∈ l.map Option.some then some vm else lookupDep acc k := by
  induction l generalizing acc with
  | nil => simp
  | cons h t ih =>
    rw [List.foldl_cons, ih]
    by_cases hmem : k ∈ t.map Option.some
    · simp [hmem]
    · rw [if_neg hmem, lookupDep_insertDep]
      by_cases hk : k = some h
      · simp [hk]
      · rw [if_neg hk, if_neg]
        simp only [List.map_cons, List.mem_cons]
        rintro (h1 | h2)
        · exact hk h1
        · exact hmem h2

/-- Membership form of `lookupDep_constPass` for string keys. -/
theorem lookupDep_constPass_str (l : List String) (vm : DepMeta)
    (acc : List (Option String × DepMeta)) (k : String) :
    lookupDep (l.foldl (fun acc d => insertDep acc (some d) vm) acc) (some k) =
      if k ∈ l then some vm else lookupDep acc (some k) := by
  rw [lookupDep_constPass]
  by_cases h : k ∈ l
  · rw [if_pos h, if_pos (List.mem_map_of_mem Option.some h)]
  · rw [if_neg h, if_neg]
    intro hmem
    rcases List.mem_map.mp hmem with ⟨d, hd, hdk⟩
    exact h (Option.some.inj hdk ▸ hd)

/-- Lookup after the Forge dependency pass: the last `depArr` entry with
the sought `modId` wins, with `mandatory` defaulting to false. -/
theorem lookupDep_forgePass (l : List TomlDep)
    (acc : List (Option String × DepMeta)) (k : Option String) :
    lookupDep (l.foldl (fun acc dep => insertDep acc dep.modId ⟨dep.mandatory.getD false⟩) acc) k =
      match l.reverse.find? (fun dep => dep.modId = k) with
      | some dep => some ⟨dep.mandatory.getD false⟩
      | none => lookupDep acc k := by
  induction l generalizing acc with
  | nil => rfl
  | cons h t ih =>
    rw [List.foldl_cons, ih, List.reverse_cons, List.find?_append]
    cases hf : t.reverse.find? (fun dep => dep.modId = k)
    · simp only [Option.none_orElse]
      rw [lookupDep_insertDep]
      by_cases hk : k = h.modId
      · simp [hk, List.find?]
      · simp [List.find?, hk, decide_eq_false (fun hh : h.modId = k => hk hh.symm)]
    · simp

/-! ### C5: the Fabric (Schema A) descriptor -/

/-- C5: for every archive containing a parseable Schema A
(`fabric.mod.json`) manifest, the extracted descriptor has id equal to
the manifest's `id` field, name equal to its `name` field with fallback
to the id, and a depends mapping built by iterating the hard `depends`
category (required=true), then `recommends` (required=false), then
`suggests` (required=false), in that order, a later category's entry
overwriting an earlier one on the same key — so a key resolves to the
last category containing it. -/
theorem c5_fabric_descriptor (a : Archive) (m : FabricManifest)
    (hok : a.ok = true) (hmem : "fabric.mod.json" ∈ a.entries)
    (hf : a.fabric = some m) :
    extract_mod_metadata a =
      some { id := m.id, name := pyOr m.name m.id
           , depends := fabricDepends m, path := a } ∧
    ∀ k : String, lookupDep (fabricDepends m) (some k) =
      if k ∈ m.suggests then some { required := false }
      else if k ∈ m.recommends then some { required := false }
      else if k ∈ m.depends then some { required := true }
      else none := by
  constructor
  · unfold extract_mod_metadata fabricStageJar
    rw [hok, hf]
    simp [hmem]
  · intro k
    unfold fabricDepends
    rw [lookupDep_constPass_str, lookupDep_constPass_str, lookupDep_constPass_str]
    rfl

/-- Witness for C5 at a concrete archive: the key declared both as hard
and recommended resolves to the later (recommended) category. -/
theorem c5_fabric_descriptor_witness :
    extract_mod_metadata c5Arch =
      some { id := some "alpha", name := some "alpha"
           , depends := fabricDepends c5Manifest, path := c5Arch } ∧
    lookupDep (fabricDepends c5Manifest) (some "both") = some { required := false } := by
  have h := c5_fabric_descriptor c5Arch c5Manifest rfl (by decide) rfl
  refine ⟨h.1, ?_⟩
  rw [h.2 "both"]
  decide

/-! ### C4: hard vs soft dependency categories -/

/-- C4 counterexample: an archive declaring the same identifier "x" in a
hard category (`depends`) and a soft category (`recommends`) produces a
descriptor in which "x" has `required = false`, although the claim
demands `required = true` for every identifier declared in a hard
category. -/
theorem c4_counterexample :
    "x" ∈ c4Manifest.depends ∧
    extract_metadata_from_bytes c4Arch = some (fabricMeta c4Manifest) ∧
    lookupDep (fabricMeta c4Manifest).depends (some "x") = some { required := false } := by
  refine ⟨by decide, rfl, by decide⟩

/-! ### C9: name fallback also on empty (falsy) names -/

/-- C9: in all three schemas, the name fallback to the id applies not
only when the manifest's name field is absent but also when it is the
empty string, because the Python code uses truthiness (`name or id`). -/
theorem c9_falsy_name_fallback :
    (∀ m : FabricManifest, (m.name = none ∨ m.name = some "") →
      (fabricMeta m).name = m.id) ∧
    (∀ (e : ForgeModEntry) (deps : List (String × List TomlDep)),
      (e.displayName = none ∨ e.displayName = some "") →
      (forgeMeta e deps).name = e.modId) ∧
    (∀ e : McmodEntry, (e.name = none ∨ e.name = some "") →
      (mcmodMeta e).name = e.modid) := by
  refine ⟨?_, ?_, ?_⟩
  · intro m h
    rcases h with h | h <;> simp [fabricMeta, pyOr, h]
  · intro e deps h
    rcases h with h | h <;> simp [forgeMeta, pyOr, h]
  · intro e h
    rcases h with h | h <;> simp [mcmodMeta, pyOr, h]

/-- Witness for C9: concrete manifests with an empty (not absent) name
field fall back to the id in each schema. -/
theorem c9_falsy_name_fallback_witness :
    (fabricMeta { id := some "fid", name := some ""
                , depends := [], recommends := [], suggests := [] }).name = some "fid" ∧
    (forgeMeta { modId := some "gid", displayName := some "" } []).name = some "gid" ∧
    (mcmodMeta { modid := some "mid", name := some ""
               , dependencies := [], requiredMods := [] }).name = some "mid" :=
  ⟨c9_falsy_name_fallback.1 _ (Or.inr rfl),
   c9_falsy_name_fallback.2.1 _ [] (Or.inr rfl),
   c9_falsy_name_fallback.2.2 _ (Or.inr rfl)⟩

/-! ### C2: failure of one schema falls through to the next -/

/-- C2 counterexample: an archive whose detected `fabric.mod.json`
fails to parse (`fabric = none`) and which also carries a valid
`META-INF/mods.toml` yields the Schema B descriptor — not absent — so a
parse failure of an earlier-detected schema does yield a descriptor
from a later schema's manifest, contradicting the claim. -/
theorem c2_counterexample :
    ("fabric.mod.json" ∈ c2Arch.entries ∧ c2Arch.fabric = none) ∧
    extract_metadata_from_bytes c2Arch =
      some (forgeMeta { modId := some "modb", displayName := some "Mod B" }
             c2Forge.dependencies) ∧
    extract_metadata_from_bytes c2Arch ≠ none := by
  refine ⟨⟨by decide, rfl⟩, rfl, by decide⟩

/-! ### C8: byte-level and jar-level extraction agree -/

theorem fabricStageJar_eq (a : Archive) :
    fabricStageJar a = (fabricStage a).map (Option.map
      (fun m => { id := m.id, name := m.name, depends := m.depends, path := a })) := by
  unfold fabricStageJar fabricStage
  by_cases h : "fabric.mod.json" ∈ a.entries
  · simp only [if_pos h]
    cases a.fabric <;> simp [fabricMeta]
  · simp [h]

theorem forgeStageJar_eq (a : Archive) :
    forgeStageJar a = (forgeStage a).map (Option.map
      (fun m => { id := m.id, name := m.name, depends := m.depends, path := a })) := by
  unfold forgeStageJar forgeStage
  by_cases h : "META-INF/mods.toml" ∈ a.entries
  · simp only [if_pos h]
    cases hf : a.forge with
    | none => simp
    | some mf => cases hm : mf.mods <;> simp [hm, forgeMeta]
  · simp [h]

theorem mcmodStageJar_eq (a : Archive) :
    mcmodStageJar a = (mcmodStage a).map (Option.map
      (fun m => { id := m.id, name := m.name, depends := m.depends, path := a })) := by
  unfold mcmodStageJar mcmodStage
  by_cases h : "mcmod.info" ∈ a.entries
  · simp only [if_pos h]
    cases hm : a.mcmod with
    | none => simp
    | some l => cases l <;> simp [mcmodMeta]
  · simp [h]

/-- C8: extracting metadata from an archive's raw bytes
(`extract_metadata_from_bytes`) and extracting it from the same content
as an on-disk archive (`extract_mod_metadata`) agree: both are absent
together, and on success the descriptors have the same id, name and
depends, the on-disk one additionally carrying the source-location
handle (`path`, the Python `_path`). -/
theorem extract_jar_eq_map (a : Archive) :
    extract_mod_metadata a = (extract_metadata_from_bytes a).map
      (fun m => { id := m.id, name := m.name, depends := m.depends, path := a }) := by
  unfold extract_mod_metadata extract_metadata_from_bytes
  rw [fabricStageJar_eq, forgeStageJar_eq, mcmodStageJar_eq]
  cases a.ok
  · simp
  · simp only [Bool.not_true, Bool.false_eq_true, if_false]
    cases fabricStage a with
    | some r => cases r <;> simp
    | none =>
      simp only [Option.map_none]
      cases forgeStage a with
      | some r => cases r <;> simp
      | none =>
        simp only [Option.map_none]
        cases mcmodStage a with
        | some r => cases r <;> simp
        | none => simp

theorem c8_bytes_jar_agreement (a : Archive) :
    extract_mod_metadata a = (extract_metadata_from_bytes a).map
      (fun m => { id := m.id, name := m.name, depends := m.depends, path := a }) :=
  extract_jar_eq_map a

/-! ### C6: registry and dependency-edge exclusion invariants -/

theorem mem_insertDict (m : List (String × ModInfo)) (k : String) (v : ModInfo)
    (p : String × ModInfo) (hp : p ∈ insertDict m k v) :
    p ∈ m ∨ p = (k, v) := by
  unfold insertDict at hp
  by_cases hany : m.any (fun q => q.1 = k) = true
  · rw [if_pos hany] at hp
    rcases List.mem_map.mp hp with ⟨q, hq, hfq⟩
    by_cases hqk : q.1 = k
    · right
      rw [if_pos hqk] at hfq
      exact hfq.symm
    · left
      rw [if_neg hqk] at hfq
      exact hfq ▸ hq
  · rw [if_neg hany] at hp
    rcases List.mem_append.mp hp with h | h
    · exact Or.inl h
    · exact Or.inr (List.mem_singleton.mp h)

theorem scanStep_inv (mods : List (String × ModInfo)) (jar : Archive)
    (hacc : ∀ r ∈ mods, r.1 ≠ "" ∧ should_ignore (some r.1) = false ∧
      ∀ q ∈ r.2.depends, should_ignore q.1 = false) :
    ∀ r ∈ scanStep mods jar, r.1 ≠ "" ∧ should_ignore (some r.1) = false ∧
      ∀ q ∈ r.2.depends, should_ignore q.1 = false := by
  intro r hr
  unfold scanStep at hr
  cases hinfo : extract_mod_metadata jar with
  | none => simp only [hinfo] at hr; exact hacc r hr
  | some info =>
    simp only [hinfo] at hr
    cases hid : info.id with
    | none => simp only [hid] at hr; exact hacc r hr
    | some i =>
      simp only [hid] at hr
      by_cases hcond : (i != "" && !should_ignore (some i)) = true
      · rw [if_pos hcond] at hr
        rw [Bool.and_eq_true] at hcond
        obtain ⟨hne, hign⟩ := hcond
        rcases mem_insertDict _ _ _ _ hr with h | h
        · exact hacc r h
        · subst h
          refine ⟨by simpa using hne, by simpa using hign, ?_⟩
          intro q hq
          have := List.mem_filter.mp hq
          simpa using this.2
      · rw [if_neg hcond] at hr
        exact hacc r hr

/-- C6: for every folder, the registry produced by the scanner contains
no entry whose key is empty (an absent id cannot become a key at all:
the insertion is guarded by the id being present and truthy), no key
matching the platform exclusion set, and no descriptor whose filtered
depends mapping retains a key matching the exclusion set — so excluded
identifiers appear neither as registry entries nor as the source of
dependency edges (the graph builder draws edges only from these
filtered depends mappings). -/
theorem c6_registry_exclusion (folder : List Archive) (p : String × ModInfo)
    (hp : p ∈ scan_mod_folder folder) :
    p.1 ≠ "" ∧ should_ignore (some p.1) = false ∧
      ∀ q ∈ p.2.depends, should_ignore q.1 = false := by
  have main : ∀ (fs : List Archive) (acc : List (String × ModInfo)),
      (∀ r ∈ acc, r.1 ≠ "" ∧ should_ignore (some r.1) = false ∧
        ∀ q ∈ r.2.depends, should_ignore q.1 = false) →
      ∀ r ∈ fs.foldl scanStep acc, r.1 ≠ "" ∧ should_ignore (some r.1) = false ∧
        ∀ q ∈ r.2.depends, should_ignore q.1 = false := by
    intro fs
    induction fs with
    | nil => intro acc hacc r hr; exact hacc r hr
    | cons jar t ih =>
      intro acc hacc r hr
      exact ih (scanStep acc jar) (scanStep_inv acc jar hacc) r hr
  exact main folder [] (by simp) p hp

/-- Witness for C6 at a concrete folder: the kept mod "goodmod" is not
excluded and its declared excluded dependency "minecraft" has been
dropped from the registry entry. -/
theorem c6_registry_exclusion_witness :
    ("goodmod" : String) ≠ "" ∧ should_ignore (some "goodmod") = false ∧
      ∀ q ∈ c6Info.depends, should_ignore q.1 = false :=
  c6_registry_exclusion [c6Arch] ("goodmod", c6Info) (by decide)

/-! ### C7: the Embedding Detector is total and failure-local -/

theorem nestedProbe_iff (a : Archive) (dep nm : String) :
    nestedProbe a dep nm = true ↔
      ∃ meta, lookupNested a nm = some (NestedEntry.bytes (some meta)) ∧
        ∃ i, meta.id = some i ∧ i ≠ "" ∧ pyLower i = dep := by
  unfold nestedProbe
  cases hl : lookupNested a nm with
  | none => simp
  | some e =>
    cases e with
    | readFail => simp
    | bytes mo =>
      cases mo with
      | none => simp
      | some meta =>
        cases hid : meta.id with
        | none => simp [hid]
        | some i => simp [hid, Bool.and_eq_true, bne_iff_ne, beq_iff_eq, and_assoc]

theorem probeNestedJars_iff (a : Archive) (dep : String) :
    probeNestedJars a dep = true ↔
      ∃ pre ∈ embeddedDirs, ∃ nm ∈ a.entries,
        strStartsWith nm pre = true ∧ strEndsWith nm ".jar" = true ∧
        ∃ meta, lookupNested a nm = some (NestedEntry.bytes (some meta)) ∧
          ∃ i, meta.id = some i ∧ i ≠ "" ∧ pyLower i = dep := by
  unfold probeNestedJars
  simp [List.any_eq_true, Bool.and_eq_true, nestedProbe_iff, and_assoc]

theorem probeNamespace_iff (a : Archive) (dep : String) :
    probeNamespace a dep = true ↔
      ∃ ns ∈ ["assets/" ++ dep ++ "/", "data/" ++ dep ++ "/"],
        ∃ p ∈ a.entries, strStartsWith p ns = true := by
  unfold probeNamespace
  simp [List.any_eq_true]

theorem probeClassPkg_iff (a : Archive) (dep : String) :
    probeClassPkg a dep = true ↔
      ∃ nm ∈ a.entries,
        (∃ pre ∈ [dep ++ "/", "com/" ++ dep ++ "/", "net/" ++ dep ++ "/", "io/" ++ dep ++ "/"],
          strStartsWith (pyLower nm) pre = true) ∧
        strEndsWith (pyLower nm) ".class" = true := by
  unfold probeClassPkg
  simp [List.any_eq_true, Bool.and_eq_true]

theorem probeFabricJars_iff (a : Archive) (dep : String) :
    probeFabricJars a dep = true ↔
      "fabric.mod.json" ∈ a.entries ∧ ∃ jars, a.fabricJars = some jars ∧
        ∃ jid ∈ jars, strContains (pyLower jid) dep = true := by
  unfold probeFabricJars
  by_cases h : "fabric.mod.json" ∈ a.entries
  · rw [if_pos h]
    cases hj : a.fabricJars with
    | none => simp [h]
    | some jars => simp [h, List.any_eq_true]
  · simp [h]

/-- C7: for every archive and dependency identifier the Embedding
Detector denotes a total boolean function (every Python-level failure is
swallowed into a `false` verdict for that probe): an unopenable archive
yields false, and otherwise the result is true exactly when one of the
four heuristics has a successful witness — so a failing nested entry
(unreadable, or without usable metadata) merely fails to witness the
first existential and never prevents another entry or a later heuristic
from satisfying the detector. -/
theorem c7_detector_total_local (a : Archive) (dep_id : String) :
    (is_dependency_embedded a dep_id = true ∨ is_dependency_embedded a dep_id = false) ∧
    (a.ok = false → is_dependency_embedded a dep_id = false) ∧
    (a.ok = true → (is_dependency_embedded a dep_id = true ↔
      ((∃ pre ∈ embeddedDirs, ∃ nm ∈ a.entries,
          strStartsWith nm pre = true ∧ strEndsWith nm ".jar" = true ∧
          ∃ meta, lookupNested a nm = some (NestedEntry.bytes (some meta)) ∧
            ∃ i, meta.id = some i ∧ i ≠ "" ∧ pyLower i = pyLower dep_id) ∨
       (∃ ns ∈ ["assets/" ++ pyLower dep_id ++ "/", "data/" ++ pyLower dep_id ++ "/"],
          ∃ p ∈ a.entries, strStartsWith p ns = true) ∨
       (∃ nm ∈ a.entries,
          (∃ pre ∈ [pyLower dep_id ++ "/", "com/" ++ pyLower dep_id ++ "/",
                    "net/" ++ pyLower dep_id ++ "/", "io/" ++ pyLower dep_id ++ "/"],
            strStartsWith (pyLower nm) pre = true) ∧
          strEndsWith (pyLower nm) ".class" = true) ∨
       ("fabric.mod.json" ∈ a.entries ∧ ∃ jars, a.fabricJars = some jars ∧
          ∃ jid ∈ jars, strContains (pyLower jid) (pyLower dep_id) = true)))) := by
  refine ⟨Bool.eq_false_or_eq_true _, ?_, ?_⟩
  · intro hok
    unfold is_dependency_embedded
    simp [hok]
  · intro hok
    unfold is_dependency_embedded
    simp only [hok, Bool.not_true, Bool.false_eq_true, if_false,
      Bool.or_eq_true, probeNestedJars_iff, probeNamespace_iff,
      probeClassPkg_iff, probeFabricJars_iff, or_assoc]

/-- Witness for C7 at a concrete archive: the nested-jar probe fails
(the nested entry is unreadable) yet the detector still reports the
dependency embedded via the later declared-jars heuristic. -/
theorem c7_detector_total_local_witness :
    is_dependency_embedded c7Arch "LibX" = true :=
  ((c7_detector_total_local c7Arch "LibX").2.2 rfl).mpr
    (Or.inr (Or.inr (Or.inr ⟨by decide, ["libx-embedded"], rfl, "libx-embedded",
      by decide, by decide⟩)))

/-! ### The Graph Builder: classification of edges (C1, C3, C10) -/

theorem depSatisfied_iff_bool (mods : List (String × ModInfo)) (d : String) :
    ((mods.map (fun p => p.1)).contains d
      || mods.any (fun q => is_dependency_embedded q.2.path d)) = true
      ↔ depSatisfied mods d := by
  unfold depSatisfied
  simp [List.any_eq_true]

/-- The source's edge-loop body agrees with the spec-side clause. -/
theorem processDep_some_eq (mods : List (String × ModInfo)) (mod_id : String)
    (st : DotState) (d : String) (meta : DepMeta) :
    processDep mods (mods.map (fun p => p.1)) mod_id st (some d) meta =
      some (if depSatisfied mods d then
              { st with out := st.out ++ [satEdgeLine mod_id d] }
            else if meta.required then
              { out := st.out ++ [redEdgeLine mod_id d]
              , missing_required := setAdd st.missing_required d
              , missing_optional := st.missing_optional }
            else
              { out := st.out ++ [yellowEdgeLine mod_id d]
              , missing_required := st.missing_required
              , missing_optional := setAdd st.missing_optional d }) := by
  unfold processDep
  by_cases hsat : depSatisfied mods d
  · have hb : ((mods.map (fun p => p.1)).contains d
        || mods.any (fun q => is_dependency_embedded q.2.path d)) = true :=
      (depSatisfied_iff_bool mods d).mpr hsat
    have hcond : (!(!(mods.map (fun p => p.1)).contains d
        && !(mods.any (fun q => is_dependency_embedded q.2.path d)))) = true := by
      rw [← Bool.not_or, Bool.not_not, hb]
    rw [if_pos hsat]
    simp only [hcond]
    simp
  · have hb : ((mods.map (fun p => p.1)).contains d
        || mods.any (fun q => is_dependency_embedded q.2.path d)) = false := by
      cases hcb : ((mods.map (fun p => p.1)).contains d
          || mods.any (fun q => is_dependency_embedded q.2.path d))
      · rfl
      · exact absurd ((depSatisfied_iff_bool mods d).mp hcb) hsat
    have hcond : (!(!(mods.map (fun p => p.1)).contains d
        && !(mods.any (fun q => is_dependency_embedded q.2.path d)))) = false := by
      rw [← Bool.not_or, Bool.not_not, hb]
    rw [if_neg hsat]
    simp only [hcond]
    cases meta.required <;> simp

theorem setAdd_nodup (s : List String) (x : String) (h : s.Nodup) :
    (setAdd s x).Nodup := by
  unfold setAdd
  by_cases hx : x ∈ s
  · rw [if_pos hx]; exact h
  · rw [if_neg hx]; simp [List.nodup_append, h, hx]

/-- Shape of one edge-loop step: it succeeds on a string key, appends
exactly the spec's line, and touches the missing sets only via
`setAdd`. -/
theorem processDep_shape (mods : List (String × ModInfo)) (mod_id : String)
    (st : DotState) (d : String) (meta : DepMeta) :
    ∃ st', processDep mods (mods.map (fun p => p.1)) mod_id st (some d) meta = some st' ∧
      st'.out = st.out ++ [specEdgeLine mods mod_id d meta] ∧
      (st'.missing_required = st.missing_required ∨
        st'.missing_required = setAdd st.missing_required d) ∧
      (st'.missing_optional = st.missing_optional ∨
        st'.missing_optional = setAdd st.missing_optional d) := by
  rw [processDep_some_eq]
  by_cases hsat : depSatisfied mods d
  · exact ⟨_, rfl, by simp [hsat, specEdgeLine], by simp [hsat], by simp [hsat]⟩
  · cases hr : meta.required
    · exact ⟨_, rfl, by simp [hsat, hr, specEdgeLine], by simp [hsat, hr], by simp [hsat, hr]⟩
    · exact ⟨_, rfl, by simp [hsat, hr, specEdgeLine], by simp [hsat, hr], by simp [hsat, hr]⟩

/-- Shape of the edge loop over one mod's depends list. -/
theorem depsFold_shape (mods : List (String × ModInfo)) (mod_id : String)
    (deps : List (Option String × DepMeta)) :
    ∀ (st st' : DotState),
    List.foldlM (fun s p => processDep mods (mods.map (fun q => q.1)) mod_id s p.1 p.2)
        st deps = some st' →
    (∀ p ∈ deps, p.1 ≠ none) ∧
    st'.out = st.out ++ deps.map (fun p => specEdgeLine mods mod_id ((p.1).getD "") p.2) ∧
    (st.missing_required.Nodup → st'.missing_required.Nodup) ∧
    (st.missing_optional.Nodup → st'.missing_optional.Nodup) := by
  induction deps with
  | nil =>
    intro st st' h
    rw [List.foldlM_nil] at h
    cases h
    refine ⟨?_, ?_, fun hh => hh, fun hh => hh⟩ <;> simp
  | cons p t ih =>
    intro st st' h
    rw [List.foldlM_cons] at h
    cases hp : p.1 with
    | none =>
      rw [hp] at h
      cases h
    | some d =>
      rw [hp] at h
      rcases processDep_shape mods mod_id st d p.2 with ⟨st1, he, hout, hmr, hmo⟩
      rw [he] at h
      replace h : List.foldlM
          (fun s p => processDep mods (mods.map (fun q => q.1)) mod_id s p.1 p.2)
          st1 t = some st' := h
      rcases ih st1 st' h with ⟨hnone, hout', hmr', hmo'⟩
      refine ⟨?_, ?_, ?_, ?_⟩
      · intro q hq
        rcases List.mem_cons.mp hq with hq | hq
        · rw [hq, hp]; exact fun hh => by cases hh
        · exact hnone q hq
      · simp [hout', hout, hp]
      · intro hnd
        apply hmr'
        rcases hmr with hmr | hmr <;> rw [hmr]
        · exact hnd
        · exact setAdd_nodup _ _ hnd
      · intro hnd
        apply hmo'
        rcases hmo with hmo | hmo <;> rw [hmo]
        · exact hnd
        · exact setAdd_nodup _ _ hnd

/-- Shape of the edge loop over the whole registry. -/
theorem modsFold_shape (mods : List (String × ModInfo))
    (ms : List (String × ModInfo)) :
    ∀ (st st' : DotState),
    List.foldlM (processMod mods (mods.map (fun p => p.1))) st ms = some st' →
    (∀ e ∈ ms, ∀ p ∈ e.2.depends, p.1 ≠ none) ∧
    st'.out = st.out ++ ms.flatMap (fun e =>
      e.2.depends.map (fun p => specEdgeLine mods e.1 ((p.1).getD "") p.2)) ∧
    (st.missing_required.Nodup → st'.missing_required.Nodup) ∧
    (st.missing_optional.Nodup → st'.missing_optional.Nodup) := by
  induction ms with
  | nil =>
    intro st st' h
    rw [List.foldlM_nil] at h
    cases h
    refine ⟨?_, ?_, fun hh => hh, fun hh => hh⟩ <;> simp
  | cons e t ih =>
    intro st st' h
    rw [List.foldlM_cons] at h
    cases he : processMod mods (mods.map (fun p => p.1)) st e with
    | none => rw [he] at h; cases h
    | some st1 =>
      rw [he] at h
      replace h : List.foldlM (processMod mods (mods.map (fun p => p.1))) st1 t
          = some st' := h
      rcases depsFold_shape mods e.1 e.2.depends st st1 he with ⟨hnone1, hout1, hmr1, hmo1⟩
      rcases ih st1 st' h with ⟨hnone2, hout2, hmr2, hmo2⟩
      refine ⟨?_, ?_, fun hnd => hmr2 (hmr1 hnd), fun hnd => hmo2 (hmo1 hnd)⟩
      · intro q hq
        rcases List.mem_cons.mp hq with hq | hq
        · rw [hq]; exact hnone1
        · exact hnone2 q hq
      · rw [hout2, hout1]
        simp [List.flatMap_cons]

/-! ### C1: edge classification in the emitted graph -/

/-- C1: whenever the graph builder completes on a registry, its output
consists of the header, one node line per registry entry, then — for
every mod in registry order and every (dependency, meta) pair of that
mod's filtered depends mapping, in order — exactly one edge line, equal
to `specEdgeLine`: a satisfied edge exactly when the dependency
identifier is a key of the registry or some probe of the Embedding
Detector against a registered mod's source archive succeeds (the Python
loop takes the probes in registry iteration order and stops at the
first success, which cannot change the truth of the disjunction), and
otherwise a `missing_required` edge when `meta.required` is true and a
`missing_optional` edge when it is false.  All dependency keys are
real strings in a completed run. -/
theorem c1_edge_classification (mods : List (String × ModInfo)) (out : List String)
    (h : export_to_dot mods = some out) :
    (∀ e ∈ mods, ∀ p ∈ e.2.depends, p.1 ≠ none) ∧
    ∃ tail, out =
      headerLines ++ mods.map (fun p => nodeLine p.1 p.2)
        ++ mods.flatMap (fun e => e.2.depends.map (fun p =>
             specEdgeLine mods e.1 ((p.1).getD "") p.2))
        ++ tail := by
  unfold export_to_dot at h
  cases hf : List.foldlM (processMod mods (List.map (fun p => p.1) mods))
      { out := headerLines ++ List.map (fun p => nodeLine p.1 p.2) mods
      , missing_required := [], missing_optional := [] } mods with
  | none => simp only [hf] at h; exact Option.noConfusion h
  | some stF =>
    simp only [hf, Option.some.injEq] at h
    rcases modsFold_shape mods mods _ stF hf with ⟨hnone, hout, -, -⟩
    refine ⟨hnone, (sortStr stF.missing_required).map reqNodeLine
      ++ (sortStr stF.missing_optional).map optNodeLine ++ ["\x7d"], ?_⟩
    rw [← h, hout]
    simp [List.append_assoc]

/-- Witness for C1 at a concrete registry with one satisfied and one
missing-optional dependency. -/
theorem c1_edge_classification_witness :
    (∀ e ∈ c1Mods, ∀ p ∈ e.2.depends, p.1 ≠ none) ∧
    ∃ tail, (export_to_dot c1Mods).getD [] =
      headerLines ++ c1Mods.map (fun p => nodeLine p.1 p.2)
        ++ c1Mods.flatMap (fun e => e.2.depends.map (fun p =>
             specEdgeLine c1Mods e.1 ((p.1).getD "") p.2))
        ++ tail :=
  c1_edge_classification c1Mods ((export_to_dot c1Mods).getD []) (by decide)

/-! ### C3: placeholder node deduplication -/

theorem insertSorted_perm (x : String) (l : List String) :
    (insertSorted x l).Perm (x :: l) := by
  induction l with
  | nil => exact List.Perm.refl _
  | cons y ys ih =>
    unfold insertSorted
    by_cases hxy : y < x
    · rw [if_pos hxy]
      exact (List.Perm.cons y ih).trans (List.Perm.swap x y ys)
    · rw [if_neg hxy]

theorem sortStr_perm (l : List String) : (sortStr l).Perm l := by
  induction l with
  | nil => exact List.Perm.refl _
  | cons x xs ih =>
    unfold sortStr
    rw [List.foldr_cons]
    exact (insertSorted_perm x (List.foldr insertSorted [] xs)).trans (List.Perm.cons x ih)

theorem sortStr_nodup (l : List String) (h : l.Nodup) : (sortStr l).Nodup :=
  (sortStr_perm l).symm.nodup h

/-- C3 counterexample: the identifier "x", missing and referenced as
required by mod "a" but as optional by mod "b", receives two placeholder
node declarations in the emitted text (one red, one yellow), refuting
"the same identifier never receives two placeholder node
declarations". -/
theorem c3_counterexample :
    (export_to_dot c3Mods).isSome = true ∧
    ((export_to_dot c3Mods).getD []).count (reqNodeLine "x") = 1 ∧
    ((export_to_dot c3Mods).getD []).count (optNodeLine "x") = 1 := by
  refine ⟨by decide, by decide, by decide⟩

/-! ### C10: the installed-membership test is case-sensitive -/

/-- C10: the membership test `dep not in installed` deciding whether a
dependency is installed compares exactly (case-sensitively): if the
dependency differs from every registry key as a string — even if it
matches one up to letter case — and no embedding probe succeeds, the
edge is classified missing; by contrast the exclusion filter and the
embedding detector are invariant under changes of letter case of their
input identifier (both lowercase before comparing). -/
theorem c10_case_sensitive_membership :
    (∀ (mods : List (String × ModInfo)) (st : DotState) (mod_id d : String)
        (meta : DepMeta),
      d ∉ mods.map (fun p => p.1) →
      (∀ q ∈ mods, is_dependency_embedded q.2.path d = false) →
      processDep mods (mods.map (fun p => p.1)) mod_id st (some d) meta =
        some (if meta.required then
                { out := st.out ++ [redEdgeLine mod_id d]
                , missing_required := setAdd st.missing_required d
                , missing_optional := st.missing_optional }
              else
                { out := st.out ++ [yellowEdgeLine mod_id d]
                , missing_required := st.missing_required
                , missing_optional := setAdd st.missing_optional d })) ∧
    (∀ s₁ s₂ : String, pyLower s₁ = pyLower s₂ →
      should_ignore (some s₁) = should_ignore (some s₂)) ∧
    (∀ (a : Archive) (d₁ d₂ : String), pyLower d₁ = pyLower d₂ →
      is_dependency_embedded a d₁ = is_dependency_embedded a d₂) := by
  refine ⟨?_, ?_, ?_⟩
  · intro mods st mod_id d meta hmem hprobe
    have hnsat : ¬ depSatisfied mods d := by
      rintro (hm | ⟨q, hq, hqe⟩)
      · exact hmem hm
      · rw [hprobe q hq] at hqe; cases hqe
    rw [processDep_some_eq, if_neg hnsat]
  · intro s₁ s₂ hl
    show (s₁ != "" && IGNORED_MODS.contains (pyLower s₁))
      = (s₂ != "" && IGNORED_MODS.contains (pyLower s₂))
    have hdata : s₁.data.map Char.toLower = s₂.data.map Char.toLower := by
      have hc := congrArg String.data hl
      simpa [pyLower] using hc
    have hemp : (s₁ = "") ↔ (s₂ = "") := by
      constructor <;> intro he
      · subst he
        have : s₂.data.map Char.toLower = [] := hdata.symm
        have h2 : s₂.data = [] := by simpa using this
        cases s₂
        simp_all
      · subst he
        have : s₁.data.map Char.toLower = [] := hdata
        have h2 : s₁.data = [] := by simpa using this
        cases s₁
        simp_all
    by_cases he : s₁ = ""
    · have he2 : s₂ = "" := hemp.mp he
      rw [he, he2]
    · have he2 : s₂ ≠ "" := fun hh => he (hemp.mpr hh)
      have hb1 : (s₁ != "") = true := by simp [he]
      have hb2 : (s₂ != "") = true := by simp [he2]
      rw [hl, hb1, hb2]
  · intro a d₁ d₂ hl
    unfold is_dependency_embedded
    rw [hl]

/-- Witness for C10: "sodium" differs from the registry key "Sodium"
only in case, yet is classified missing-required. -/
theorem c10_case_sensitive_membership_witness :
    pyLower "sodium" = pyLower "Sodium" ∧
    processDep [("Sodium", c10Info)] ["Sodium"] "m"
        { out := [], missing_required := [], missing_optional := [] }
        (some "sodium") { required := true } =
      some { out := [redEdgeLine "m" "sodium"]
           , missing_required := ["sodium"], missing_optional := [] } := by
  refine ⟨by decide, ?_⟩
  have h := c10_case_sensitive_membership.1 [("Sodium", c10Info)]
    { out := [], missing_required := [], missing_optional := [] }
    "m" "sodium" { required := true } (by decide) (by decide)
  simpa [setAdd] using h


/-! ### C2: scheme-by-scheme control flow of the extractor -/

theorem fabricStage_eq_none_iff (a : Archive) :
    fabricStage a = none ↔ ¬ fabricParses a := by
  unfold fabricStage fabricParses
  by_cases h : "fabric.mod.json" ∈ a.entries
  · rw [if_pos h]
    cases hf : a.fabric <;> simp [h, hf]
  · rw [if_neg h]
    simp [h]

theorem forgeStage_eq_none_iff (a : Archive) :
    forgeStage a = none ↔ ¬ forgeParses a := by
  unfold forgeStage forgeParses
  by_cases h : "META-INF/mods.toml" ∈ a.entries
  · rw [if_pos h]
    cases hf : a.forge with
    | none => simp [h, hf]
    | some mf => cases hm : mf.mods <;> simp [h, hf, hm]
  · rw [if_neg h]
    simp [h]

theorem mcmodStage_eq_none_iff (a : Archive) :
    mcmodStage a = none ↔ ¬ mcmodYields a := by
  unfold mcmodStage mcmodYields
  by_cases h : "mcmod.info" ∈ a.entries
  · rw [if_pos h]
    cases hm : a.mcmod with
    | none => simp [h, hm]
    | some l => cases l <;> simp [h, hm]
  · rw [if_neg h]
    simp [h]

theorem fabricStage_some_of (a : Archive) (m : FabricManifest)
    (h : "fabric.mod.json" ∈ a.entries) (hf : a.fabric = some m) :
    fabricStage a = some (some (fabricMeta m)) := by
  unfold fabricStage
  rw [if_pos h, hf]

theorem forgeStage_empty_mods (a : Archive) (mf : ForgeManifest)
    (h : "META-INF/mods.toml" ∈ a.entries) (hf : a.forge = some mf)
    (hm : mf.mods = []) : forgeStage a = some none := by
  unfold forgeStage
  rw [if_pos h, hf]
  simp [hm]

theorem forgeStage_cons (a : Archive) (mf : ForgeManifest) (e : ForgeModEntry)
    (rest : List ForgeModEntry) (h : "META-INF/mods.toml" ∈ a.entries)
    (hf : a.forge = some mf) (hm : mf.mods = e :: rest) :
    forgeStage a = some (some (forgeMeta e mf.dependencies)) := by
  unfold forgeStage
  rw [if_pos h, hf]
  simp [hm]

theorem mcmodStage_cons (a : Archive) (e : McmodEntry) (rest : List McmodEntry)
    (h : "mcmod.info" ∈ a.entries) (hm : a.mcmod = some (e :: rest)) :
    mcmodStage a = some (some (mcmodMeta e)) := by
  unfold mcmodStage
  rw [if_pos h, hm]

/-- The extractor on an openable archive is the three-stage cascade. -/
theorem extract_bytes_stages (a : Archive) (hok : a.ok = true) :
    extract_metadata_from_bytes a =
      (match fabricStage a with
       | some r => r
       | none =>
         match forgeStage a with
         | some r => r
         | none =>
           match mcmodStage a with
           | some r => r
           | none => none) := by
  unfold extract_metadata_from_bytes
  simp [hok]

/-- C2 (amended): a parse or field-access failure inside a detected
schema aborts only that schema's attempt and falls through to the next
schema's detection (the `except: pass` blocks are followed by the next
`if`): after Schema A yields nothing, a parseable Schema B manifest
with a nonempty `mods` array produces the Schema B descriptor, and
after Schema B also yields nothing a nonempty Schema C manifest
produces the Schema C descriptor.  The one exception is a Schema B
manifest parsing to an empty `mods` array, which executes `return
None` immediately, without trying Schema C.  Overall the extractor is
absent exactly when the archive is unopenable, or Schema A does not
produce a descriptor and then either the empty-`mods` Schema B case
fires or Schema B fails too and Schema C yields nothing; and the two
extractor entry points are absent together. -/
theorem c2_amended_fallthrough (a : Archive) :
    (a.ok = true → ¬ fabricParses a →
      ∀ (mf : ForgeManifest) (e : ForgeModEntry) (rest : List ForgeModEntry),
        "META-INF/mods.toml" ∈ a.entries → a.forge = some mf →
        mf.mods = e :: rest →
        extract_metadata_from_bytes a = some (forgeMeta e mf.dependencies)) ∧
    (a.ok = true → ¬ fabricParses a → ¬ forgeParses a →
      ∀ (e : McmodEntry) (rest : List McmodEntry),
        "mcmod.info" ∈ a.entries → a.mcmod = some (e :: rest) →
        extract_metadata_from_bytes a = some (mcmodMeta e)) ∧
    (a.ok = true → ¬ fabricParses a →
      ∀ mf : ForgeManifest, "META-INF/mods.toml" ∈ a.entries →
        a.forge = some mf → mf.mods = [] →
        extract_metadata_from_bytes a = none) ∧
    (extract_metadata_from_bytes a = none ↔
      a.ok = false ∨
      (¬ fabricParses a ∧
        ((∃ mf, "META-INF/mods.toml" ∈ a.entries ∧ a.forge = some mf ∧ mf.mods = [])
          ∨ (¬ forgeParses a ∧ ¬ mcmodYields a)))) ∧
    (extract_mod_metadata a = none ↔ extract_metadata_from_bytes a = none) := by
  refine ⟨?_, ?_, ?_, ?_, ?_⟩
  · intro hok hnf mf e rest hmem hforge hmods
    rw [extract_bytes_stages a hok, (fabricStage_eq_none_iff a).mpr hnf,
      forgeStage_cons a mf e rest hmem hforge hmods]
  · intro hok hnf hng e rest hmem hmc
    rw [extract_bytes_stages a hok, (fabricStage_eq_none_iff a).mpr hnf,
      (forgeStage_eq_none_iff a).mpr hng, mcmodStage_cons a e rest hmem hmc]
  · intro hok hnf mf hmem hforge hmods
    rw [extract_bytes_stages a hok, (fabricStage_eq_none_iff a).mpr hnf,
      forgeStage_empty_mods a mf hmem hforge hmods]
  · constructor
    · intro hnone
      cases hok : a.ok with
      | false => exact Or.inl rfl
      | true =>
        rw [extract_bytes_stages a hok] at hnone
        right
        by_cases hfp : fabricParses a
        · obtain ⟨hmem, hne⟩ := hfp
          cases hf : a.fabric with
          | none => exact absurd hf hne
          | some m =>
            rw [fabricStage_some_of a m hmem hf] at hnone
            exact Option.noConfusion hnone
        · refine ⟨hfp, ?_⟩
          rw [(fabricStage_eq_none_iff a).mpr hfp] at hnone
          by_cases hgp : forgeParses a
          · obtain ⟨hmem, hne⟩ := hgp
            cases hf : a.forge with
            | none => exact absurd hf hne
            | some mf =>
              cases hm : mf.mods with
              | nil => exact Or.inl ⟨mf, hmem, rfl, hm⟩
              | cons e rest =>
                rw [forgeStage_cons a mf e rest hmem hf hm] at hnone
                exact Option.noConfusion hnone
          · refine Or.inr ⟨hgp, ?_⟩
            rw [(forgeStage_eq_none_iff a).mpr hgp] at hnone
            intro hmy
            obtain ⟨hmem, e, rest, hm⟩ := hmy
            rw [mcmodStage_cons a e rest hmem hm] at hnone
            exact Option.noConfusion hnone
    · rintro (hok | ⟨hnf, hrest⟩)
      · unfold extract_metadata_from_bytes
        rw [hok]
        rfl
      · cases hok : a.ok with
        | false =>
          unfold extract_metadata_from_bytes
          rw [hok]
          rfl
        | true =>
          rw [extract_bytes_stages a hok, (fabricStage_eq_none_iff a).mpr hnf]
          rcases hrest with ⟨mf, hmem, hf, hm⟩ | ⟨hngp, hnmy⟩
          · rw [forgeStage_empty_mods a mf hmem hf hm]
          · rw [(forgeStage_eq_none_iff a).mpr hngp,
              (mcmodStage_eq_none_iff a).mpr hnmy]
  · rw [extract_jar_eq_map a]
    cases extract_metadata_from_bytes a <;> simp

/-- Witness for the amended C2: the counterexample archive (failed
Schema A, valid Schema B) yields the Schema B descriptor via the
fallthrough clause, and the empty-`mods` archive is absent despite its
valid Schema C manifest via the exception clause. -/
theorem c2_amended_fallthrough_witness :
    extract_metadata_from_bytes c2Arch =
      some (forgeMeta { modId := some "modb", displayName := some "Mod B" }
             c2Forge.dependencies) ∧
    extract_metadata_from_bytes c2EmptyArch = none :=
  ⟨(c2_amended_fallthrough c2Arch).1 rfl (by decide) c2Forge
      { modId := some "modb", displayName := some "Mod B" } [] (by decide) rfl rfl,
   (c2_amended_fallthrough c2EmptyArch).2.2.1 rfl (by decide)
      { mods := [], dependencies := [] } (by decide) rfl rfl⟩

/-! ### C3: exact characterization of the missing-identifier sets -/

theorem setAdd_mem (s : List String) (y x : String) :
    x ∈ setAdd s y ↔ x ∈ s ∨ x = y := by
  unfold setAdd
  by_cases hy : y ∈ s
  · rw [if_pos hy]
    constructor
    · exact Or.inl
    · rintro (hx | rfl)
      · exact hx
      · exact hy
  · rw [if_neg hy]
    simp

/-- Exact effect of one edge-loop step on the two missing sets. -/
theorem processDep_missing (mods : List (String × ModInfo)) (mod_id : String)
    (st : DotState) (d : String) (meta : DepMeta) :
    ∃ st', processDep mods (mods.map (fun p => p.1)) mod_id st (some d) meta = some st' ∧
      (∀ x, x ∈ st'.missing_required ↔ x ∈ st.missing_required ∨
        (x = d ∧ ¬ depSatisfied mods d ∧ meta.required = true)) ∧
      (∀ x, x ∈ st'.missing_optional ↔ x ∈ st.missing_optional ∨
        (x = d ∧ ¬ depSatisfied mods d ∧ meta.required = false)) := by
  rw [processDep_some_eq]
  by_cases hsat : depSatisfied mods d
  · refine ⟨_, rfl, ?_, ?_⟩ <;> intro x <;> simp [hsat]
  · cases hr : meta.required
    · refine ⟨_, rfl, ?_, ?_⟩ <;> intro x
      · simp [hsat, hr]
      · simp [hsat, hr, setAdd_mem]
    · refine ⟨_, rfl, ?_, ?_⟩ <;> intro x
      · simp [hsat, hr, setAdd_mem]
      · simp [hsat, hr]

/-- Membership of the missing sets after the edge loop over one mod's
depends list. -/
theorem depsFold_missing (mods : List (String × ModInfo)) (mod_id : String)
    (deps : List (Option String × DepMeta)) :
    ∀ (st st' : DotState),
    List.foldlM (fun s p => processDep mods (mods.map (fun q => q.1)) mod_id s p.1 p.2)
        st deps = some st' →
    (∀ x, x ∈ st'.missing_required ↔ x ∈ st.missing_required ∨
      ∃ p ∈ deps, p.1 = some x ∧ ¬ depSatisfied mods x ∧ p.2.required = true) ∧
    (∀ x, x ∈ st'.missing_optional ↔ x ∈ st.missing_optional ∨
      ∃ p ∈ deps, p.1 = some x ∧ ¬ depSatisfied mods x ∧ p.2.required = false) := by
  induction deps with
  | nil =>
    intro st st' h
    rw [List.foldlM_nil] at h
    cases h
    constructor <;> intro x <;> simp
  | cons p t ih =>
    intro st st' h
    rw [List.foldlM_cons] at h
    cases hp : p.1 with
    | none => rw [hp] at h; cases h
    | some d =>
      rw [hp] at h
      rcases processDep_missing mods mod_id st d p.2 with ⟨st1, he, hmr, hmo⟩
      rw [he] at h
      replace h : List.foldlM
          (fun s p => processDep mods (mods.map (fun q => q.1)) mod_id s p.1 p.2)
          st1 t = some st' := h
      rcases ih st1 st' h with ⟨hmr', hmo'⟩
      constructor
      · intro x
        rw [hmr' x, hmr x]
        constructor
        · rintro ((hx | ⟨rfl, hns, hreq⟩) | ⟨q, hq, hq1, hns, hreq⟩)
          · exact Or.inl hx
          · exact Or.inr ⟨p, List.mem_cons_self p t, hp, hns, hreq⟩
          · exact Or.inr ⟨q, List.mem_cons_of_mem p hq, hq1, hns, hreq⟩
        · rintro (hx | ⟨q, hq, hq1, hns, hreq⟩)
          · exact Or.inl (Or.inl hx)
          · rcases List.mem_cons.mp hq with rfl | hq2
            · rw [hp] at hq1
              rcases Option.some.inj hq1 with rfl
              exact Or.inl (Or.inr ⟨rfl, hns, hreq⟩)
            · exact Or.inr ⟨q, hq2, hq1, hns, hreq⟩
      · intro x
        rw [hmo' x, hmo x]
        constructor
        · rintro ((hx | ⟨rfl, hns, hreq⟩) | ⟨q, hq, hq1, hns, hreq⟩)
          · exact Or.inl hx
          · exact Or.inr ⟨p, List.mem_cons_self p t, hp, hns, hreq⟩
          · exact Or.inr ⟨q, List.mem_cons_of_mem p hq, hq1, hns, hreq⟩
        · rintro (hx | ⟨q, hq, hq1, hns, hreq⟩)
          · exact Or.inl (Or.inl hx)
          · rcases List.mem_cons.mp hq with rfl | hq2
            · rw [hp] at hq1
              rcases Option.some.inj hq1 with rfl
              exact Or.inl (Or.inr ⟨rfl, hns, hreq⟩)
            · exact Or.inr ⟨q, hq2, hq1, hns, hreq⟩

/-- Membership of the missing sets after the edge loop over the whole
registry. -/
theorem modsFold_missing (mods : List (String × ModInfo))
    (ms : List (String × ModInfo)) :
    ∀ (st st' : DotState),
    List.foldlM (processMod mods (mods.map (fun p => p.1))) st ms = some st' →
    (∀ x, x ∈ st'.missing_required ↔ x ∈ st.missing_required ∨
      ∃ e ∈ ms, ∃ p ∈ e.2.depends,
        p.1 = some x ∧ ¬ depSatisfied mods x ∧ p.2.required = true) ∧
    (∀ x, x ∈ st'.missing_optional ↔ x ∈ st.missing_optional ∨
      ∃ e ∈ ms, ∃ p ∈ e.2.depends,
        p.1 = some x ∧ ¬ depSatisfied mods x ∧ p.2.required = false) := by
  induction ms with
  | nil =>
    intro st st' h
    rw [List.foldlM_nil] at h
    cases h
    constructor <;> intro x <;> simp
  | cons e t ih =>
    intro st st' h
    rw [List.foldlM_cons] at h
    cases he : processMod mods (mods.map (fun p => p.1)) st e with
    | none => rw [he] at h; cases h
    | some st1 =>
      rw [he] at h
      replace h : List.foldlM (processMod mods (mods.map (fun p => p.1))) st1 t
          = some st' := h
      rcases depsFold_missing mods e.1 e.2.depends st st1 he with ⟨hmr1, hmo1⟩
      rcases ih st1 st' h with ⟨hmr2, hmo2⟩
      constructor
      · intro x
        rw [hmr2 x, hmr1 x]
        constructor
        · rintro ((hx | ⟨q, hq, hrest⟩) | ⟨f, hf, hrest⟩)
          · exact Or.inl hx
          · exact Or.inr ⟨e, List.mem_cons_self e t, q, hq, hrest⟩
          · exact Or.inr ⟨f, List.mem_cons_of_mem e hf, hrest⟩
        · rintro (hx | ⟨f, hf, q, hq, hrest⟩)
          · exact Or.inl (Or.inl hx)
          · rcases List.mem_cons.mp hf with rfl | hf2
            · exact Or.inl (Or.inr ⟨q, hq, hrest⟩)
            · exact Or.inr ⟨f, hf2, q, hq, hrest⟩
      · intro x
        rw [hmo2 x, hmo1 x]
        constructor
        · rintro ((hx | ⟨q, hq, hrest⟩) | ⟨f, hf, hrest⟩)
          · exact Or.inl hx
          · exact Or.inr ⟨e, List.mem_cons_self e t, q, hq, hrest⟩
          · exact Or.inr ⟨f, List.mem_cons_of_mem e hf, hrest⟩
        · rintro (hx | ⟨f, hf, q, hq, hrest⟩)
          · exact Or.inl (Or.inl hx)
          · rcases List.mem_cons.mp hf with rfl | hf2
            · exact Or.inl (Or.inr ⟨q, hq, hrest⟩)
            · exact Or.inr ⟨f, hf2, q, hq, hrest⟩

/-- C3 (amended): on every completed run the output is the header, the
node lines, the edge lines, then the two placeholder sections: each is
a map over a duplicate-free sorted list of identifiers whose members
are exactly the identifiers that some mod's filtered depends classifies
as missing of that severity — so each distinct missing identifier gets
exactly one placeholder declaration per severity class, even when
referenced by several mods of that class; but an identifier classified
missing-required by one mod and missing-optional by another is, by that
same characterization, in both lists and receives one declaration from
each class (two in total), contrary to the claim's "never two" for
mixed classifications. -/
theorem c3_amended_placeholder_dedup (mods : List (String × ModInfo))
    (out : List String) (h : export_to_dot mods = some out) :
    ∃ mr mo,
      out = headerLines ++ mods.map (fun p => nodeLine p.1 p.2)
        ++ mods.flatMap (fun e => e.2.depends.map (fun p =>
             specEdgeLine mods e.1 ((p.1).getD "") p.2))
        ++ (sortStr mr).map reqNodeLine ++ (sortStr mo).map optNodeLine
        ++ ["\x7d"] ∧
      (sortStr mr).Nodup ∧ (sortStr mo).Nodup ∧
      (∀ d, d ∈ sortStr mr ↔ ∃ e ∈ mods, ∃ p ∈ e.2.depends,
        p.1 = some d ∧ ¬ depSatisfied mods d ∧ p.2.required = true) ∧
      (∀ d, d ∈ sortStr mo ↔ ∃ e ∈ mods, ∃ p ∈ e.2.depends,
        p.1 = some d ∧ ¬ depSatisfied mods d ∧ p.2.required = false) := by
  unfold export_to_dot at h
  cases hf : List.foldlM (processMod mods (List.map (fun p => p.1) mods))
      { out := headerLines ++ List.map (fun p => nodeLine p.1 p.2) mods
      , missing_required := [], missing_optional := [] } mods with
  | none => simp only [hf] at h; exact Option.noConfusion h
  | some stF =>
    simp only [hf, Option.some.injEq] at h
    rcases modsFold_shape mods mods _ stF hf with ⟨-, hout, hmrn, hmon⟩
    rcases modsFold_missing mods mods _ stF hf with ⟨hmr, hmo⟩
    refine ⟨stF.missing_required, stF.missing_optional, ?_,
      sortStr_nodup _ (hmrn List.nodup_nil), sortStr_nodup _ (hmon List.nodup_nil),
      ?_, ?_⟩
    · rw [← h, hout]
    · intro d
      rw [(sortStr_perm stF.missing_required).mem_iff, hmr d]
      simp
    · intro d
      rw [(sortStr_perm stF.missing_optional).mem_iff, hmo d]
      simp

/-- Witness for the amended C3 at the concrete mixed-classification
registry: the characterization forces "x" into both placeholder
sections. -/
theorem c3_amended_placeholder_dedup_witness :
    ∃ mr mo,
      (export_to_dot c3Mods).getD [] =
        headerLines ++ c3Mods.map (fun p => nodeLine p.1 p.2)
        ++ c3Mods.flatMap (fun e => e.2.depends.map (fun p =>
             specEdgeLine c3Mods e.1 ((p.1).getD "") p.2))
        ++ (sortStr mr).map reqNodeLine ++ (sortStr mo).map optNodeLine
        ++ ["\x7d"] ∧
      (sortStr mr).Nodup ∧ (sortStr mo).Nodup ∧
      (∀ d, d ∈ sortStr mr ↔ ∃ e ∈ c3Mods, ∃ p ∈ e.2.depends,
        p.1 = some d ∧ ¬ depSatisfied c3Mods d ∧ p.2.required = true) ∧
      (∀ d, d ∈ sortStr mo ↔ ∃ e ∈ c3Mods, ∃ p ∈ e.2.depends,
        p.1 = some d ∧ ¬ depSatisfied c3Mods d ∧ p.2.required = false) :=
  c3_amended_placeholder_dedup c3Mods ((export_to_dot c3Mods).getD []) (by decide)

/-! ### C4: hard vs soft categories, grounded in the extractor -/

/-- C4 (amended): an identifier declared only in soft categories has
`required = false` and one declared only in hard categories has
`required = true`; when the same identifier is declared in several
categories, the category traversed last wins.  In Schema A the soft
categories (`recommends`, then `suggests`) are traversed after the hard
`depends`, so a dual declaration ends soft; in Schema B the last
`dependencies` array entry for the modId wins (with `mandatory`
defaulting to false when absent); in Schema C both categories
(`dependencies`, `requiredMods`) are hard, so the flag is always true.
The last three conjuncts ground the characterizations in the
extractor: the extracted descriptor's depends mapping is exactly the
characterized dictionary in each schema's case. -/
theorem c4_amended_category_flags :
    (∀ (m : FabricManifest) (k : String),
      lookupDep (fabricDepends m) (some k) =
        if k ∈ m.suggests then some { required := false }
        else if k ∈ m.recommends then some { required := false }
        else if k ∈ m.depends then some { required := true }
        else none) ∧
    (∀ (depArr : List TomlDep) (k : Option String),
      lookupDep (forgeDepends depArr) k =
        match depArr.reverse.find? (fun dep => dep.modId = k) with
        | some dep => some { required := dep.mandatory.getD false }
        | none => none) ∧
    (∀ (e : McmodEntry) (k : String),
      lookupDep (mcmodDepends e) (some k) =
        if k ∈ e.requiredMods ∨ k ∈ e.dependencies then some { required := true }
        else none) ∧
    (∀ (a : Archive) (m : FabricManifest), a.ok = true →
      "fabric.mod.json" ∈ a.entries → a.fabric = some m →
      (extract_metadata_from_bytes a).map (fun r => r.depends) =
        some (fabricDepends m)) ∧
    (∀ (a : Archive) (mf : ForgeManifest) (e : ForgeModEntry)
        (rest : List ForgeModEntry),
      a.ok = true → ¬ fabricParses a → "META-INF/mods.toml" ∈ a.entries →
      a.forge = some mf → mf.mods = e :: rest →
      (extract_metadata_from_bytes a).map (fun r => r.depends) =
        some (forgeDepends (depsLookup mf.dependencies e.modId))) ∧
    (∀ (a : Archive) (e : McmodEntry) (rest : List McmodEntry),
      a.ok = true → ¬ fabricParses a → ¬ forgeParses a →
      "mcmod.info" ∈ a.entries → a.mcmod = some (e :: rest) →
      (extract_metadata_from_bytes a).map (fun r => r.depends) =
        some (mcmodDepends e)) := by
  refine ⟨?_, ?_, ?_, ?_, ?_, ?_⟩
  · intro m k
    unfold fabricDepends
    rw [lookupDep_constPass_str, lookupDep_constPass_str, lookupDep_constPass_str]
    rfl
  · intro depArr k
    unfold forgeDepends
    rw [lookupDep_forgePass]
    cases depArr.reverse.find? (fun dep => dep.modId = k) <;> rfl
  · intro e k
    unfold mcmodDepends
    rw [lookupDep_constPass_str, lookupDep_constPass_str]
    by_cases h1 : k ∈ e.requiredMods
    · simp [h1]
    · by_cases h2 : k ∈ e.dependencies <;> simp [h1, h2, lookupDep]
  · intro a m hok hmem hf
    rw [extract_bytes_stages a hok, fabricStage_some_of a m hmem hf]
    rfl
  · intro a mf e rest hok hnf hmem hf hm
    rw [extract_bytes_stages a hok, (fabricStage_eq_none_iff a).mpr hnf,
      forgeStage_cons a mf e rest hmem hf hm]
    rfl
  · intro a e rest hok hnf hng hmem hm
    rw [extract_bytes_stages a hok, (fabricStage_eq_none_iff a).mpr hnf,
      (forgeStage_eq_none_iff a).mpr hng, mcmodStage_cons a e rest hmem hm]
    rfl

/-- Witness for the amended C4: the dual-declared key "x" of the
concrete counterexample manifest resolves, in the extracted descriptor,
to the last-traversed soft category. -/
theorem c4_amended_category_flags_witness :
    lookupDep (fabricDepends c4Manifest) (some "x") = some { required := false } ∧
    (extract_metadata_from_bytes c4Arch).map (fun r => r.depends) =
      some (fabricDepends c4Manifest) := by
  constructor
  · rw [c4_amended_category_flags.1 c4Manifest "x"]
    decide
  · exact c4_amended_category_flags.2.2.2.1 c4Arch c4Manifest rfl (by decide) rfl
